import Mathlib

/-!
Verification of the lepus data-model layer (`lepus/models.py`).

The Django ORM layer is embedded shallowly: each model class becomes a Lean
structure holding the row's columns (foreign keys are stored as ids,
nullable columns as `Option`), and the database is a `DB` record of row
lists.  Derived properties (`Question.points`, `Team.points`,
`FileManager.public`, ...) become functions over `DB`, and the store-level
uniqueness constraints declared with `unique=True` / `unique_together`
become insert-time checks returning `Option DB`.  Timestamps are unix
seconds as `Nat`.
-/

namespace Lepus

/-- Row of the `Question` model: `category` is the Category foreign key id,
`max_answers` and `max_failure` are nullable integer columns, `is_public`
defaults to false. -/
structure Question where
  id : Nat
  category : Nat
  ordering : Int
  title : String
  sentence : String
  max_answers : Option Int
  max_failure : Option Int
  is_public : Bool
deriving Repr, DecidableEq

/-- Row of the `Flag` model: the flag string (globally unique), the owning
question's id and the point value. -/
structure Flag where
  id : Nat
  flag : String
  question : Nat
  point : Int
deriving Repr, DecidableEq

/-- Row of the `File` model: the owning question's id, the file name and the
visibility flag (the blob itself is irrelevant to the claims). -/
structure File where
  id : Nat
  question : Nat
  name : String
  is_public : Bool
deriving Repr, DecidableEq

/-- Row of the `Team` model, together with the `Templete` timestamp columns. -/
structure Team where
  id : Nat
  name : String
  password : String
  last_score_time : Option Nat
  created_at : Nat
  updated_at : Nat
deriving Repr, DecidableEq

/-- Row of the `User` model (the `AbstractUser` columns other than
`username` play no role in the claims): `team` is a nullable foreign key. -/
structure User where
  id : Nat
  username : String
  team : Option Nat
  seat : String
  last_score_time : Option Nat
deriving Repr, DecidableEq

/-- Row of the `UserConnection` model with its `Templete` timestamps, which
`UserConnection.update` reads and writes. -/
structure UserConnection where
  id : Nat
  user : Nat
  ip : String
  created_at : Nat
  updated_at : Nat
deriving Repr, DecidableEq

/-- Row of the `Answer` model: `flag` is the nullable Flag foreign key;
an answer is correct iff `flag` is non-null. -/
structure Answer where
  id : Nat
  user : Nat
  team : Nat
  question : Nat
  flag : Option Nat
  answer : String
deriving Repr, DecidableEq

/-- Row of the `AttackPoint` model: `token` is a globally unique string. -/
structure AttackPoint where
  id : Nat
  user : Nat
  team : Nat
  question : Nat
  token : String
  point : Int
deriving Repr, DecidableEq

/-- Row of the `Config` model: `value_str` holds the serialized payload. -/
structure Config where
  id : Nat
  key : String
  value_str : String
deriving Repr, DecidableEq

/-- The relational store: one list of rows per table.  `nextId` is the
store's autoincrement counter, used when a new row is created. -/
structure DB where
  questions : List Question
  flags : List Flag
  files : List File
  teams : List Team
  users : List User
  userConnections : List UserConnection
  answers : List Answer
  attackPoints : List AttackPoint
  configs : List Config
  nextId : Nat
deriving Repr, DecidableEq

/-- Reverse foreign-key set `question.flag_set.all()`: all Flag rows whose
`question` id is this question's id. -/
def Question.flag_set (db : DB) (q : Question) : List Flag :=
  db.flags.filter (fun f => f.question == q.id)

/-- `Question.points`: `sum([o.point for o in self.flag_set.all()])`. -/
def Question.points (db : DB) (q : Question) : Int :=
  ((q.flag_set db).map (fun o => o.point)).sum

/-- `Question.files`: `self.file_set.filter(is_public=True)` — the question's
files with `is_public=True`; the question's own `is_public` is not consulted. -/
def Question.files (db : DB) (q : Question) : List File :=
  (db.files.filter (fun f => f.question == q.id)).filter (fun f => f.is_public)

/-- `FileManager.public`: `filter(is_public=True, question__is_public=True)` —
file rows whose own flag is set and whose related question row is public
(the SQL join condition is the existence of a matching related row). -/
def FileManager.public (db : DB) : List File :=
  db.files.filter (fun f => f.is_public && db.questions.any (fun q => q.id == f.question && q.is_public))

/-- Foreign-key dereference `answer.flag.point`.  A dangling reference is
impossible under the store's FK constraint; it defaults to 0 here. -/
def Answer.flagPoint (db : DB) (a : Answer) : Int :=
  match db.flags.find? (fun f => a.flag == some f.id) with
  | some f => f.point
  | none => 0

/-- `Team.points`: filter this team's answers, exclude `flag=None`, sum the
referenced flags' points in a loop, then add the team's attack points. -/
def Team.points (db : DB) (t : Team) : Int :=
  let answers := (db.answers.filter (fun a => a.team == t.id)).filter (fun a => !(a.flag == none))
  let pts := answers.foldl (fun acc a => acc + Answer.flagPoint db a) 0
  (db.attackPoints.filter (fun ap => ap.team == t.id)).foldl (fun acc ap => acc + ap.point) pts

/-- `User.points`: same aggregation as `Team.points`, keyed by the user. -/
def User.points (db : DB) (u : User) : Int :=
  let answers := (db.answers.filter (fun a => a.user == u.id)).filter (fun a => !(a.flag == none))
  let pts := answers.foldl (fun acc a => acc + Answer.flagPoint db a) 0
  (db.attackPoints.filter (fun ap => ap.user == u.id)).foldl (fun acc ap => acc + ap.point) pts

/-- Message hashed by `Team.token`: `"{0}_{1}_{2}".format(secret, id, bucket)`. -/
def tokenMessage (secretKey : String) (teamId : Nat) (bucket : Nat) : String :=
  secretKey ++ "_" ++ toString teamId ++ "_" ++ toString bucket

/-- Modelled from the spec: `hashlib.sha1(...).hexdigest()` is Python
standard-library code, not part of this repository, so the hash is an
arbitrary function parameter `sha1hex`.  `Team.token` hashes the secret key,
the team id and the time bucket `int(time.time() / TEAM_TOKEN_INTERVAL)`. -/
def Team.token (sha1hex : String → String) (secretKey : String) (interval : Nat) (t : Team) (now : Nat) : String :=
  sha1hex (tokenMessage secretKey t.id (now / interval))

/-- Store-level check of `unique_together (('team', 'flag'),)` on `Answer`:
two rows conflict when the teams agree and both flag references are non-null
and equal (SQL treats NULL as distinct from NULL in a unique constraint). -/
def answerKeyConflict (a b : Answer) : Bool :=
  a.team == b.team && a.flag.isSome && b.flag.isSome && a.flag == b.flag

/-- Insertion of an `Answer` row as the backing store performs it: the insert
is rejected (`none`) when it would violate the (team, flag) uniqueness
constraint, otherwise the row is appended. -/
def DB.insertAnswer (db : DB) (a : Answer) : Option DB :=
  if db.answers.any (fun b => answerKeyConflict b a) then none
  else some { db with answers := db.answers ++ [a] }

/-- Insertion of an `AttackPoint` row as the backing store performs it: the
insert is rejected when the `token` column (declared `unique=True`) already
occurs, otherwise the row is appended. -/
def DB.insertAttackPoint (db : DB) (p : AttackPoint) : Option DB :=
  if db.attackPoints.any (fun q => q.token == p.token) then none
  else some { db with attackPoints := db.attackPoints ++ [p] }

/-- `UserConnection.update(user, ip)`: get-or-create by (user, ip); when the
row exists its `updated_at` is set to now and saved (by primary key);
when it does not, a fresh row is created with both timestamps set to now.
Returns the new state and the returned record. -/
def UserConnection.update (db : DB) (user : Nat) (ip : String) (now : Nat) : DB × UserConnection :=
  match db.userConnections.find? (fun c => c.user == user && c.ip == ip) with
  | some c =>
    let c2 : UserConnection := { c with updated_at := now }
    ({ db with userConnections := db.userConnections.map (fun x => if x.id == c.id then c2 else x) }, c2)
  | none =>
    let c : UserConnection := { id := db.nextId, user := user, ip := ip, created_at := now, updated_at := now }
    ({ db with userConnections := db.userConnections ++ [c], nextId := db.nextId + 1 }, c)

/-- Universe of values stored in `Config`: the claims quantify over the
payload, so a concrete (if small) Python value universe is used. -/
inductive PyObject where
  | none : PyObject
  | bool : Bool → PyObject
  | int : Int → PyObject
  | str : String → PyObject
deriving Repr, DecidableEq

/-- Decimal digit to its ASCII character. -/
def digitChar (d : Nat) : Char :=
  Char.ofNat (48 + d)

/-- ASCII character back to its decimal digit, `none` outside 0-9. -/
def charDigit (c : Char) : Option Nat :=
  if 48 ≤ c.toNat ∧ c.toNat ≤ 57 then some (c.toNat - 48) else none

/-- Decimal digits of a natural number, least significant first. -/
def natDigitsRev (n : Nat) : List Nat :=
  if h : n < 10 then [n]
  else (n % 10) :: natDigitsRev (n / 10)
decreasing_by exact Nat.div_lt_self (by omega) (by omega)

/-- Decimal rendering of a natural number. -/
def encodeNat (n : Nat) : List Char :=
  (natDigitsRev n).reverse.map digitChar

/-- Parse a decimal digit string, most significant first, onto an accumulator. -/
def decodeDigits : List Char → Nat → Option Nat
  | [], acc => some acc
  | c :: cs, acc =>
    match charDigit c with
    | some d => decodeDigits cs (acc * 10 + d)
    | none => none

/-- Decimal rendering of an integer. -/
def encodeInt (n : Int) : List Char :=
  if n < 0 then '-' :: encodeNat n.natAbs else encodeNat n.natAbs

/-- Parse a decimal integer. -/
def decodeInt : List Char → Option Int
  | [] => none
  | c :: cs =>
    if c == '-' then (decodeDigits cs 0).map (fun m => -(Int.ofNat m))
    else (decodeDigits (c :: cs) 0).map Int.ofNat

/-- Modelled from the spec: `pickle.dumps` is Python standard-library code,
not part of this repository; the spec calls `value_str` an opaque serialized
payload, so serialization is modelled as an injective tagged encoding of the
value universe into a string. -/
def pickleDumps : PyObject → String
  | PyObject.none => String.mk ['N']
  | PyObject.bool true => String.mk ['T']
  | PyObject.bool false => String.mk ['F']
  | PyObject.int n => String.mk ('I' :: encodeInt n)
  | PyObject.str s => String.mk ('S' :: s.data)

/-- Modelled from the spec: `pickle.loads`, the inverse deserializer;
a corrupt payload yields `none` (Python raises). -/
def pickleLoads (s : String) : Option PyObject :=
  match s.data with
  | [] => none
  | c :: cs =>
    if c == 'N' then if cs.isEmpty then some PyObject.none else none
    else if c == 'T' then if cs.isEmpty then some (PyObject.bool true) else none
    else if c == 'F' then if cs.isEmpty then some (PyObject.bool false) else none
    else if c == 'I' then (decodeInt cs).map PyObject.int
    else if c == 'S' then some (PyObject.str (String.mk cs))
    else none

/-- `Config.set_value`: `self.value_str = pickle.dumps(value)`. -/
def Config.set_value (c : Config) (value : PyObject) : Config :=
  { c with value_str := pickleDumps value }

/-- `Config.get_value`: `pickle.loads(self.value_str)`. -/
def Config.get_value (c : Config) : Option PyObject :=
  pickleLoads c.value_str

/-- Modelled from the spec: `django.contrib.auth.hashers` is framework code,
not part of this repository.  `make_password` hashes a raw password,
`verify` compares a raw password against a stored encoding, and
`must_update` detects a legacy-format encoding that should be rehashed. -/
structure Hashers where
  make_password : String → String
  verify : String → String → Bool
  must_update : String → Bool

/-- `Team.set_password`: `self.password = make_password(password)`. -/
def Team.set_password (H : Hashers) (t : Team) (password : String) : Team :=
  { t with password := H.make_password password }

/-- `Team.check_password`: returns whether the raw password matches the
stored hash; when it matches and the stored encoding is legacy-format, the
setter rehashes and persists with `save(update_fields=["password"])`, which
writes only the `password` column of this team's row. -/
def Team.check_password (H : Hashers) (db : DB) (t : Team) (raw_password : String) : DB × Bool :=
  let correct := H.verify raw_password t.password
  if correct && H.must_update t.password then
    let t2 := Team.set_password H t raw_password
    ({ db with teams := db.teams.map (fun x => if x.id == t.id then { x with password := t2.password } else x) },
     correct)
  else (db, correct)

/-- Iterated store insertion of `Answer` rows, each subject to the
uniqueness constraint; the first rejected insert aborts. -/
def DB.insertAnswers (db : DB) : List Answer → Option DB
  | [] => some db
  | a :: rest =>
    match db.insertAnswer a with
    | some db2 => db2.insertAnswers rest
    | none => none

/-- The spec's scoring formula for a question: the sum of `point` over the
Flag rows belonging to it. -/
def specQuestionPoints (db : DB) (questionId : Nat) : Int :=
  ((db.flags.filter (fun f => f.question == questionId)).map (fun f => f.point)).sum

/-- The spec's scoring formula for a team: sum of `flag.point` over the
team's correct answers plus the sum of its attack-point records. -/
def specTeamPoints (db : DB) (teamId : Nat) : Int :=
  ((db.answers.filter (fun a => a.team == teamId && a.flag.isSome)).map (fun a => Answer.flagPoint db a)).sum
    + ((db.attackPoints.filter (fun ap => ap.team == teamId)).map (fun ap => ap.point)).sum

/-- The spec's scoring formula for a user. -/
def specUserPoints (db : DB) (userId : Nat) : Int :=
  ((db.answers.filter (fun a => a.user == userId && a.flag.isSome)).map (fun a => Answer.flagPoint db a)).sum
    + ((db.attackPoints.filter (fun ap => ap.user == userId)).map (fun ap => ap.point)).sum

/-- The store with every table empty. -/
def emptyDB : DB :=
  { questions := [], flags := [], files := [], teams := [], users := [],
    userConnections := [], answers := [], attackPoints := [], configs := [], nextId := 0 }

/-- A public question used by concrete instances. -/
def qC7 : Question :=
  { id := 1, category := 1, ordering := 100, title := "q1", sentence := "s1",
    max_answers := none, max_failure := none, is_public := true }

/-- A second question, with no flags. -/
def qC7e : Question :=
  { id := 3, category := 1, ordering := 101, title := "q3", sentence := "s3",
    max_answers := none, max_failure := none, is_public := true }

/-- A store whose question 1 has two flags worth 50 and 100 points, and an
unrelated flag on question 2. -/
def dbC7 : DB :=
  { emptyDB with
    questions := [qC7, qC7e],
    flags := [{ id := 1, flag := "flag-a", question := 1, point := 50 },
              { id := 2, flag := "flag-b", question := 1, point := 100 },
              { id := 3, flag := "flag-c", question := 2, point := 30 }] }

/-- Claim C7: `Question.points` is the sum of `point` over the question's
Flag rows; concretely a question with flags worth 50 and 100 has 150 points
and a question with no flags has 0 points. -/
theorem question_points_is_flag_sum :
    (∀ (db : DB) (q : Question), Question.points db q = specQuestionPoints db q.id)
    ∧ Question.points dbC7 qC7 = 150 ∧ Question.points dbC7 qC7e = 0 := by
  refine ⟨fun db q => rfl, by decide, by decide⟩

/-- Claim C2: the team token is determined by the secret key, the team id
and the time bucket `now / interval` alone; in particular two computations
in the same bucket yield the identical digest. -/
theorem token_same_bucket (sha1hex : String → String) (secretKey : String) (interval : Nat)
    (t t2 : Team) (n1 n2 : Nat) (hid : t.id = t2.id) (hb : n1 / interval = n2 / interval) :
    Team.token sha1hex secretKey interval t n1 = Team.token sha1hex secretKey interval t2 n2 := by
  unfold Team.token
  rw [hid, hb]

/-- Two team rows differing in everything but the id, used as the concrete
instance for the token claim. -/
def tC2 : Team :=
  { id := 1, name := "alpha", password := "h1", last_score_time := none, created_at := 0, updated_at := 0 }

/-- Second team row with the same id. -/
def tC2b : Team :=
  { id := 1, name := "beta", password := "h2", last_score_time := some 9, created_at := 5, updated_at := 6 }

/-- Concrete instance of `token_same_bucket`: times 30 and 35 fall in the
same bucket of width 20, so the tokens agree. -/
theorem token_same_bucket_witness :
    tC2.id = tC2b.id ∧ 30 / 20 = 35 / 20 ∧
    Team.token (fun s => s) "secret" 20 tC2 30 = Team.token (fun s => s) "secret" 20 tC2b 35 :=
  ⟨rfl, by decide, token_same_bucket (fun s => s) "secret" 20 tC2 tC2b 30 35 rfl (by decide)⟩

/-- Claim C3: inserting an `Answer` whose (team, flag) pair, with a non-null
flag, already occurs in the store is rejected by the uniqueness constraint;
the store is left unchanged (`none` carries no new state), so the existing
row remains the only one for the pair. -/
theorem answer_duplicate_rejected (db : DB) (a b : Answer) (f : Nat)
    (ha : a ∈ db.answers) (hteam : b.team = a.team)
    (haf : a.flag = some f) (hbf : b.flag = some f) :
    DB.insertAnswer db b = none := by
  unfold DB.insertAnswer
  have hany : db.answers.any (fun x => answerKeyConflict x b) = true := by
    refine List.any_eq_true.mpr ⟨a, ha, ?_⟩
    unfold answerKeyConflict
    simp [hteam, haf, hbf]
  simp [hany]

/-- An answer row crediting flag 7 to team 2. -/
def aC3 : Answer :=
  { id := 1, user := 1, team := 2, question := 1, flag := some 7, answer := "flag-a" }

/-- A second submission by the same team for the same flag. -/
def bC3 : Answer :=
  { id := 2, user := 3, team := 2, question := 1, flag := some 7, answer := "flag-a" }

/-- A store already holding the first answer. -/
def dbC3 : DB := { emptyDB with answers := [aC3] }

/-- Concrete instance of `answer_duplicate_rejected`. -/
theorem answer_duplicate_rejected_witness :
    (aC3 ∈ dbC3.answers ∧ bC3.team = aC3.team ∧ aC3.flag = some 7 ∧ bC3.flag = some 7)
    ∧ DB.insertAnswer dbC3 bC3 = none :=
  ⟨⟨by decide, rfl, rfl, rfl⟩, answer_duplicate_rejected dbC3 aC3 bC3 7 (by decide) rfl rfl rfl⟩

/-- Claim C6: inserting an `AttackPoint` whose token already occurs in the
store is rejected by the unique constraint on `token`. -/
theorem attack_point_duplicate_token_rejected (db : DB) (p q : AttackPoint)
    (hp : p ∈ db.attackPoints) (htok : q.token = p.token) :
    DB.insertAttackPoint db q = none := by
  unfold DB.insertAttackPoint
  have hany : db.attackPoints.any (fun x => x.token == q.token) = true := by
    refine List.any_eq_true.mpr ⟨p, hp, ?_⟩
    simp [htok]
  simp [hany]

/-- An attack-point row with token "tok-1". -/
def pC6 : AttackPoint :=
  { id := 1, user := 1, team := 2, question := 1, token := "tok-1", point := 25 }

/-- A second attack-point row submitting the same token for another team. -/
def qC6 : AttackPoint :=
  { id := 2, user := 4, team := 3, question := 1, token := "tok-1", point := 25 }

/-- A store already holding the first attack point. -/
def dbC6 : DB := { emptyDB with attackPoints := [pC6] }

/-- Concrete instance of `attack_point_duplicate_token_rejected`. -/
theorem attack_point_duplicate_token_rejected_witness :
    (pC6 ∈ dbC6.attackPoints ∧ qC6.token = pC6.token)
    ∧ DB.insertAttackPoint dbC6 qC6 = none :=
  ⟨⟨by decide, rfl⟩, attack_point_duplicate_token_rejected dbC6 pC6 qC6 (by decide) rfl⟩

/-- Helper for C10: a single null-flag insert always succeeds. -/
theorem insertAnswer_null_flag (db : DB) (a : Answer) (hflag : a.flag = none) :
    DB.insertAnswer db a = some { db with answers := db.answers ++ [a] } := by
  unfold DB.insertAnswer
  have hany : db.answers.any (fun b => answerKeyConflict b a) = false := by
    simp only [List.any_eq_false]
    intro x _
    unfold answerKeyConflict
    simp [hflag]
  simp [hany]

/-- Claim C10: the (team, flag) constraint never restricts rows with a null
flag reference: any list of incorrect answers (flag=None) is inserted in
full, no insert being rejected, regardless of the starting store. -/
theorem null_flag_answers_never_rejected (db : DB) (l : List Answer)
    (hl : ∀ a ∈ l, a.flag = none) :
    DB.insertAnswers db l = some { db with answers := db.answers ++ l } := by
  induction l generalizing db with
  | nil => simp [DB.insertAnswers]
  | cons a rest ih =>
    have ha : a.flag = none := hl a (List.mem_cons_self a rest)
    have h1 := insertAnswer_null_flag db a ha
    have h2 := ih { db with answers := db.answers ++ [a] } (fun x hx => hl x (List.mem_cons_of_mem a hx))
    simp only [DB.insertAnswers, h1, h2, List.append_assoc, List.singleton_append]

/-- Two incorrect answers by the same team for the same question. -/
def wrongC10a : Answer :=
  { id := 5, user := 1, team := 2, question := 1, flag := none, answer := "wrong-1" }

/-- Second incorrect answer. -/
def wrongC10b : Answer :=
  { id := 6, user := 1, team := 2, question := 1, flag := none, answer := "wrong-2" }

/-- Concrete instance of `null_flag_answers_never_rejected`: a store that
already holds answers accepts two more null-flag rows from the same team. -/
theorem null_flag_answers_never_rejected_witness :
    (∀ a ∈ [wrongC10a, wrongC10b], a.flag = none)
    ∧ DB.insertAnswers dbC3 [wrongC10a, wrongC10b]
      = some { dbC3 with answers := dbC3.answers ++ [wrongC10a, wrongC10b] } :=
  ⟨by decide, null_flag_answers_never_rejected dbC3 [wrongC10a, wrongC10b] (by decide)⟩

/-- A left fold accumulating `g` over a list is the initial value plus the
sum of the mapped list. -/
theorem foldl_add_eq_sum {α : Type} (g : α → Int) (init : Int) (l : List α) :
    l.foldl (fun acc x => acc + g x) init = init + (l.map g).sum := by
  induction l generalizing init with
  | nil => simp
  | cons x xs ih =>
    simp only [List.foldl_cons, List.map_cons, List.sum_cons, ih]
    ring

/-- Filtering by `p` and then excluding null flags equals one filter for
`p` and a non-null flag. -/
theorem filter_exclude_none (l : List Answer) (p : Answer → Bool) :
    (l.filter p).filter (fun a => !(a.flag == none)) = l.filter (fun a => p a && a.flag.isSome) := by
  rw [List.filter_filter]
  apply List.filter_congr
  intro a _
  cases h : a.flag <;> cases hp : p a <;> simp [h, hp]

/-- Claim C1: for every team, `Team.points` equals the sum of `flag.point`
over the team's non-null-flag Answer rows plus the sum of `point` over the
team's AttackPoint rows, and the analogous equation holds for `User.points`. -/
theorem points_eq_spec (db : DB) (t : Team) (u : User) :
    Team.points db t = specTeamPoints db t.id ∧ User.points db u = specUserPoints db u.id := by
  constructor
  · simp only [Team.points, specTeamPoints]
    rw [filter_exclude_none, foldl_add_eq_sum, foldl_add_eq_sum]
    ring
  · simp only [User.points, specUserPoints]
    rw [filter_exclude_none, foldl_add_eq_sum, foldl_add_eq_sum]
    ring

/-- When question ids are unique, the SQL join condition "some related
question row is public" evaluates to the owning question's own flag. -/
theorem any_public_of_mem (l : List Question) (q : Question) (fq : Nat)
    (hids : (l.map (fun x => x.id)).Nodup) (hq : q ∈ l) (hfq : fq = q.id) :
    (l.any (fun x => x.id == fq && x.is_public)) = q.is_public := by
  subst hfq
  induction l with
  | nil => cases hq
  | cons x xs ih =>
    simp only [List.map_cons, List.nodup_cons] at hids
    rcases List.mem_cons.mp hq with rfl | hq2
    · have hxs : xs.any (fun y => y.id == q.id && y.is_public) = false := by
        simp only [List.any_eq_false]
        intro y hy
        have hne : y.id ≠ q.id := by
          intro he
          exact hids.1 (he ▸ List.mem_map_of_mem (fun z => z.id) hy)
        simp [hne]
      simp [List.any_cons, hxs]
    · have hne : x.id ≠ q.id := by
        intro he
        exact hids.1 (he ▸ List.mem_map_of_mem (fun z => z.id) hq2)
      have hrec := ih hids.2 hq2
      simp [List.any_cons, hrec, hne]

/-- Claim C4: when question ids are unique, a file belonging to question
`q` appears in the store's public file list (`File.objects.public()`)
iff it is stored, its own `is_public` flag is set, and `q.is_public` is
set; so a private file of a public question and a public file of a private
question are both excluded. -/
theorem file_in_public_list_iff (db : DB) (q : Question) (f : File)
    (hq : q ∈ db.questions) (hids : (db.questions.map (fun x => x.id)).Nodup)
    (hf : f.question = q.id) :
    f ∈ FileManager.public db ↔ (f ∈ db.files ∧ f.is_public = true ∧ q.is_public = true) := by
  unfold FileManager.public
  rw [List.mem_filter]
  rw [any_public_of_mem db.questions q f.question hids hq hf]
  simp [Bool.and_eq_true, and_assoc]

/-- A private question used by the C4 instance. -/
def qC4priv : Question :=
  { id := 2, category := 1, ordering := 102, title := "q2", sentence := "s2",
    max_answers := none, max_failure := none, is_public := false }

/-- A private file attached to the public question 1. -/
def fC4a : File := { id := 1, question := 1, name := "private.txt", is_public := false }

/-- A public file attached to the private question 2. -/
def fC4b : File := { id := 2, question := 2, name := "public.txt", is_public := true }

/-- A public file attached to the public question 1. -/
def fC4c : File := { id := 3, question := 1, name := "visible.txt", is_public := true }

/-- Store with a public and a private question and three files. -/
def dbC4 : DB := { emptyDB with questions := [qC7, qC4priv], files := [fC4a, fC4b, fC4c] }

/-- Concrete instance of `file_in_public_list_iff`: the public file of the
public question is listed. -/
theorem file_in_public_list_iff_witness :
    (qC7 ∈ dbC4.questions ∧ (dbC4.questions.map (fun x => x.id)).Nodup ∧ fC4c.question = qC7.id)
    ∧ (fC4c ∈ FileManager.public dbC4 ↔ (fC4c ∈ dbC4.files ∧ fC4c.is_public = true ∧ qC7.is_public = true)) :=
  ⟨⟨by decide, by decide, rfl⟩, file_in_public_list_iff dbC4 qC7 fC4c (by decide) (by decide) rfl⟩

/-- Claim C9: `Team.check_password` returns whether the raw password
verifies against the stored hash, and writes at most the `password` column
of this team's rows: the teams table keeps its length and order, a row
whose id differs from this team's is unchanged entirely (its password
included), a row with this team's id keeps its id, name, last_score_time
and both timestamps, and every other table and the autoincrement counter
are unchanged. -/
theorem check_password_frame (H : Hashers) (db : DB) (t : Team) (raw_password : String) :
    (Team.check_password H db t raw_password).2 = H.verify raw_password t.password
    ∧ List.Forall₂
        (fun x x2 =>
          (x.id ≠ t.id → x2 = x)
          ∧ (x.id = t.id → x2.id = x.id ∧ x2.name = x.name
              ∧ x2.last_score_time = x.last_score_time
              ∧ x2.created_at = x.created_at ∧ x2.updated_at = x.updated_at))
        db.teams (Team.check_password H db t raw_password).1.teams
    ∧ (Team.check_password H db t raw_password).1.questions = db.questions
    ∧ (Team.check_password H db t raw_password).1.flags = db.flags
    ∧ (Team.check_password H db t raw_password).1.files = db.files
    ∧ (Team.check_password H db t raw_password).1.users = db.users
    ∧ (Team.check_password H db t raw_password).1.userConnections = db.userConnections
    ∧ (Team.check_password H db t raw_password).1.answers = db.answers
    ∧ (Team.check_password H db t raw_password).1.attackPoints = db.attackPoints
    ∧ (Team.check_password H db t raw_password).1.configs = db.configs
    ∧ (Team.check_password H db t raw_password).1.nextId = db.nextId := by
  simp only [Team.check_password]
  split
  · refine ⟨rfl, ?_, rfl, rfl, rfl, rfl, rfl, rfl, rfl, rfl, rfl⟩
    dsimp only
    rw [List.forall₂_map_right_iff, List.forall₂_same]
    intro x _
    constructor
    · intro hne
      simp [hne]
    · intro heq
      simp [heq]
  · refine ⟨rfl, ?_, rfl, rfl, rfl, rfl, rfl, rfl, rfl, rfl, rfl⟩
    exact List.forall₂_same.mpr
      (fun x _ => ⟨fun _ => rfl, fun _ => ⟨rfl, rfl, rfl, rfl, rfl⟩⟩)

/-- Decoding inverts `digitChar` on decimal digits. -/
theorem charDigit_digitChar (d : Nat) (h : d < 10) : charDigit (digitChar d) = some d := by
  interval_cases d <;> decide

/-- Every entry of `natDigitsRev` is a decimal digit. -/
theorem natDigitsRev_lt (n : Nat) : ∀ d ∈ natDigitsRev n, d < 10 := by
  induction n using Nat.strong_induction_on with
  | _ n ih =>
    rw [natDigitsRev]
    split
    · intro d hd
      simp only [List.mem_singleton] at hd
      omega
    · intro d hd
      rcases List.mem_cons.mp hd with rfl | hd2
      · exact Nat.mod_lt _ (by omega)
      · exact ih (n / 10) (Nat.div_lt_self (by omega) (by omega)) d hd2

/-- The digit list of a natural number is never empty. -/
theorem natDigitsRev_ne_nil (n : Nat) : natDigitsRev n ≠ [] := by
  rw [natDigitsRev]
  split <;> simp

/-- Folding the digit multiplication over the digit list recovers the
number, shifted under the accumulator. -/
theorem foldr_natDigitsRev (n : Nat) :
    ∀ acc, (natDigitsRev n).foldr (fun d a => a * 10 + d) acc
      = acc * 10 ^ (natDigitsRev n).length + n := by
  induction n using Nat.strong_induction_on with
  | _ n ih =>
    intro acc
    rw [natDigitsRev]
    split
    · simp only [List.foldr_cons, List.foldr_nil, List.length_singleton, pow_one]
    · rename_i h
      simp only [List.foldr_cons, List.length_cons]
      rw [ih (n / 10) (Nat.div_lt_self (by omega) (by omega)) acc, pow_succ]
      have hmod : n / 10 * 10 + n % 10 = n := by omega
      calc (acc * 10 ^ (natDigitsRev (n / 10)).length + n / 10) * 10 + n % 10
          = acc * (10 ^ (natDigitsRev (n / 10)).length * 10) + (n / 10 * 10 + n % 10) := by ring
        _ = acc * (10 ^ (natDigitsRev (n / 10)).length * 10) + n := by rw [hmod]

/-- Parsing a rendered digit list folds the digits back onto the
accumulator. -/
theorem decodeDigits_map (ds : List Nat) :
    ∀ acc, (∀ d ∈ ds, d < 10) →
      decodeDigits (ds.map digitChar) acc = some (ds.foldl (fun a d => a * 10 + d) acc) := by
  induction ds with
  | nil => intro acc _; rfl
  | cons d rest ih =>
    intro acc h
    have hd := charDigit_digitChar d (h d (List.mem_cons_self d rest))
    simp only [List.map_cons, decodeDigits, hd, List.foldl_cons]
    exact ih _ (fun x hx => h x (List.mem_cons_of_mem d hx))

/-- Round trip for the decimal rendering of natural numbers. -/
theorem decodeDigits_encodeNat (n : Nat) : decodeDigits (encodeNat n) 0 = some n := by
  unfold encodeNat
  rw [decodeDigits_map ((natDigitsRev n).reverse) 0
      (fun d hd => natDigitsRev_lt n d (List.mem_reverse.mp hd))]
  rw [List.foldl_reverse, foldr_natDigitsRev n 0]
  simp

/-- The decimal rendering never starts with a minus sign. -/
theorem encodeNat_head_not_neg (m : Nat) (c : Char) (cs : List Char)
    (h : encodeNat m = c :: cs) : (c == '-') = false := by
  have hc : c ∈ encodeNat m := by
    rw [h]; exact List.mem_cons_self c cs
  unfold encodeNat at hc
  rcases List.mem_map.mp hc with ⟨d, hd, rfl⟩
  have hd10 : d < 10 := natDigitsRev_lt m d (List.mem_reverse.mp hd)
  interval_cases d <;> decide

/-- The decimal rendering is never empty. -/
theorem encodeNat_ne_nil (m : Nat) : encodeNat m ≠ [] := by
  unfold encodeNat
  intro hnil
  rw [List.map_eq_nil_iff, List.reverse_eq_nil_iff] at hnil
  exact natDigitsRev_ne_nil m hnil

/-- Round trip for the decimal rendering of integers. -/
theorem decodeInt_encodeInt (n : Int) : decodeInt (encodeInt n) = some n := by
  unfold encodeInt
  split
  · rename_i hneg
    simp only [decodeInt, beq_self_eq_true, if_true, decodeDigits_encodeNat, Option.map_some']
    congr 1
    simp only [Int.ofNat_eq_natCast]
    omega
  · rename_i hpos
    cases h : encodeNat n.natAbs with
    | nil => exact absurd h (encodeNat_ne_nil _)
    | cons c cs =>
      simp only [decodeInt, encodeNat_head_not_neg _ _ _ h, Bool.false_eq_true, if_false]
      rw [← h, decodeDigits_encodeNat]
      simp only [Option.map_some']
      congr 1
      simp only [Int.ofNat_eq_natCast]
      omega

/-- The modelled deserializer inverts the modelled serializer on every
value of the universe. -/
theorem pickle_roundtrip (v : PyObject) : pickleLoads (pickleDumps v) = some v := by
  cases v with
  | none => rfl
  | bool b => cases b <;> rfl
  | str s => rfl
  | int n => simp [pickleDumps, pickleLoads, decodeInt_encodeInt]

/-- Claim C8: for every stored value, `get_value` after `set_value` returns
exactly the value that was set. -/
theorem config_get_value_after_set_value (c : Config) (v : PyObject) :
    Config.get_value (Config.set_value c v) = some v :=
  pickle_roundtrip v

/-- A filter with at most one hit whose `find?` succeeds filters to exactly
that hit. -/
theorem filter_eq_singleton_of_find? {α : Type} {p : α → Bool} {l : List α} {c : α}
    (hlen : (l.filter p).length ≤ 1) (hfind : l.find? p = some c) :
    l.filter p = [c] := by
  have hc : c ∈ l.filter p :=
    List.mem_filter.mpr ⟨List.mem_of_find?_eq_some hfind, List.find?_some hfind⟩
  cases hl : l.filter p with
  | nil => rw [hl] at hc; cases hc
  | cons x xs =>
    rw [hl] at hc hlen
    cases xs with
    | nil =>
      simp only [List.mem_singleton] at hc
      rw [hc]
    | cons y ys => simp at hlen

/-- Replacing, by id, the unique row satisfying `p` with a row that still
satisfies `p` leaves exactly the replacement satisfying `p`. -/
theorem filter_map_replace {p : UserConnection → Bool} {l : List UserConnection}
    {c c2 : UserConnection} (hids : (l.map (fun x => x.id)).Nodup)
    (hfilter : l.filter p = [c]) (hp : p c2 = true) (hid : c2.id = c.id) :
    (l.map (fun x => if x.id == c.id then c2 else x)).filter p = [c2] := by
  induction l with
  | nil => simp at hfilter
  | cons x xs ih =>
    simp only [List.map_cons, List.nodup_cons] at hids
    by_cases hpx : p x = true
    · rw [List.filter_cons_of_pos hpx] at hfilter
      simp only [List.cons.injEq] at hfilter
      obtain ⟨rfl, hxs⟩ := hfilter
      have htail : xs.map (fun y => if y.id == x.id then c2 else y) = xs := by
        have h1 : xs.map (fun y => if y.id == x.id then c2 else y) = xs.map id := by
          apply List.map_congr_left
          intro y hy
          have hne : y.id ≠ x.id := by
            intro he
            exact hids.1 (he ▸ List.mem_map_of_mem (fun z => z.id) hy)
          simp [hne]
        rw [h1, List.map_id]
      simp only [List.map_cons, beq_self_eq_true, if_true, htail]
      rw [List.filter_cons_of_pos hp, hxs]
    · rw [List.filter_cons_of_neg hpx] at hfilter
      have hcx : c ∈ xs := by
        have : c ∈ xs.filter p := by rw [hfilter]; exact List.mem_singleton_self c
        exact (List.mem_filter.mp this).1
      have hxne : (x.id == c.id) = false := by
        have : x.id ≠ c.id := by
          intro he
          exact hids.1 (he ▸ List.mem_map_of_mem (fun z => z.id) hcx)
        simp [this]
      simp only [List.map_cons, hxne, Bool.false_eq_true, if_false]
      rw [List.filter_cons_of_neg hpx]
      exact ih hids.2 hfilter

/-- Replacing a row by id preserves the list of ids. -/
theorem map_id_replace (l : List UserConnection) (c c2 : UserConnection) (hid : c2.id = c.id) :
    (l.map (fun x => if x.id == c.id then c2 else x)).map (fun x => x.id)
      = l.map (fun x => x.id) := by
  rw [List.map_map]
  apply List.map_congr_left
  intro x _
  by_cases h : x.id = c.id <;> simp [h, hid]

/-- One call of `UserConnection.update` on a store satisfying the store
invariants (distinct primary keys, fresh autoincrement counter, at most one
row per (user, ip) pair): after the call exactly the returned row matches
the pair, the returned row carries the pair and the call time, and the
invariants still hold. -/
theorem update_single (db : DB) (u : Nat) (ip : String) (t : Nat)
    (hids : (db.userConnections.map (fun x => x.id)).Nodup)
    (hfresh : ∀ c ∈ db.userConnections, c.id < db.nextId)
    (hpair : (db.userConnections.filter (fun c => c.user == u && c.ip == ip)).length ≤ 1) :
    (UserConnection.update db u ip t).1.userConnections.filter (fun c => c.user == u && c.ip == ip)
        = [(UserConnection.update db u ip t).2]
    ∧ (UserConnection.update db u ip t).2.user = u
    ∧ (UserConnection.update db u ip t).2.ip = ip
    ∧ (UserConnection.update db u ip t).2.updated_at = t
    ∧ ((UserConnection.update db u ip t).1.userConnections.map (fun x => x.id)).Nodup
    ∧ ∀ c ∈ (UserConnection.update db u ip t).1.userConnections,
        c.id < (UserConnection.update db u ip t).1.nextId := by
  cases hfind : db.userConnections.find? (fun c => c.user == u && c.ip == ip) with
  | none =>
    have hupd : UserConnection.update db u ip t
        = ({ db with
              userConnections := db.userConnections
                ++ [{ id := db.nextId, user := u, ip := ip, created_at := t, updated_at := t }],
              nextId := db.nextId + 1 },
           { id := db.nextId, user := u, ip := ip, created_at := t, updated_at := t }) := by
      simp only [UserConnection.update, hfind]
    have hnil : db.userConnections.filter (fun c => c.user == u && c.ip == ip) = [] :=
      List.filter_eq_nil_iff.mpr (List.find?_eq_none.mp hfind)
    rw [hupd]
    dsimp only
    refine ⟨?_, rfl, rfl, rfl, ?_, ?_⟩
    · rw [List.filter_append, hnil]
      simp
    · rw [List.map_append, List.nodup_append]
      refine ⟨hids, List.nodup_singleton _, ?_⟩
      intro y hy hy2
      simp at hy2
      rcases List.mem_map.mp hy with ⟨x, hx, hxy⟩
      have hxlt := hfresh x hx
      omega
    · intro x hx
      rcases List.mem_append.mp hx with hx1 | hx2
      · have := hfresh x hx1
        omega
      · simp only [List.mem_singleton] at hx2
        subst hx2
        show db.nextId < db.nextId + 1
        omega
  | some c =>
    have hpcc := List.find?_some hfind
    have hfilter := filter_eq_singleton_of_find? hpair hfind
    simp only [Bool.and_eq_true, beq_iff_eq] at hpcc
    have hupd : UserConnection.update db u ip t
        = ({ db with
              userConnections := db.userConnections.map
                (fun x => if x.id == c.id then { c with updated_at := t } else x) },
           { c with updated_at := t }) := by
      simp only [UserConnection.update, hfind]
    rw [hupd]
    dsimp only
    refine ⟨?_, hpcc.1, hpcc.2, rfl, ?_, ?_⟩
    · apply filter_map_replace hids hfilter
      · simp [hpcc.1, hpcc.2]
      · rfl
    · rw [map_id_replace db.userConnections c { c with updated_at := t } rfl]
      exact hids
    · intro x hx
      rcases List.mem_map.mp hx with ⟨y, hy, rfl⟩
      by_cases h : y.id = c.id
      · have hcdb : c ∈ db.userConnections := List.mem_of_find?_eq_some hfind
        have hclt := hfresh c hcdb
        simp [h, hclt]
      · have hylt := hfresh y hy
        simp [h, hylt]

/-- Claim C5: calling `UserConnection.update` twice with the same (user, ip)
on a store satisfying the store invariants leaves exactly one row for the
pair — the row returned by the second call, whose `updated_at` is the second
call's time — and each call returns the row for the pair, the first call
stamping it with the first call's time. -/
theorem userConnection_update_twice (db : DB) (u : Nat) (ip : String) (t1 t2 : Nat)
    (hids : (db.userConnections.map (fun x => x.id)).Nodup)
    (hfresh : ∀ c ∈ db.userConnections, c.id < db.nextId)
    (hpair : (db.userConnections.filter (fun c => c.user == u && c.ip == ip)).length ≤ 1) :
    (UserConnection.update (UserConnection.update db u ip t1).1 u ip t2).1.userConnections.filter
        (fun c => c.user == u && c.ip == ip)
      = [(UserConnection.update (UserConnection.update db u ip t1).1 u ip t2).2]
    ∧ (UserConnection.update (UserConnection.update db u ip t1).1 u ip t2).2.user = u
    ∧ (UserConnection.update (UserConnection.update db u ip t1).1 u ip t2).2.ip = ip
    ∧ (UserConnection.update (UserConnection.update db u ip t1).1 u ip t2).2.updated_at = t2
    ∧ (UserConnection.update db u ip t1).1.userConnections.filter (fun c => c.user == u && c.ip == ip)
        = [(UserConnection.update db u ip t1).2]
    ∧ (UserConnection.update db u ip t1).2.user = u
    ∧ (UserConnection.update db u ip t1).2.ip = ip
    ∧ (UserConnection.update db u ip t1).2.updated_at = t1 := by
  obtain ⟨h1f, h1u, h1ip, h1t, h1nodup, h1fresh⟩ := update_single db u ip t1 hids hfresh hpair
  have h1len : ((UserConnection.update db u ip t1).1.userConnections.filter
      (fun c => c.user == u && c.ip == ip)).length ≤ 1 := by
    rw [h1f]
    simp
  obtain ⟨h2f, h2u, h2ip, h2t, _, _⟩ :=
    update_single (UserConnection.update db u ip t1).1 u ip t2 h1nodup h1fresh h1len
  exact ⟨h2f, h2u, h2ip, h2t, h1f, h1u, h1ip, h1t⟩

/-- Concrete instance of `userConnection_update_twice` on the empty store:
user 1 connecting twice from the same address at times 5 and 9 leaves one
row, stamped 9. -/
theorem userConnection_update_twice_witness :
    ((emptyDB.userConnections.map (fun x => x.id)).Nodup
      ∧ (∀ c ∈ emptyDB.userConnections, c.id < emptyDB.nextId)
      ∧ (emptyDB.userConnections.filter (fun c => c.user == 1 && c.ip == "10.0.0.1")).length ≤ 1)
    ∧ ((UserConnection.update (UserConnection.update emptyDB 1 "10.0.0.1" 5).1 1 "10.0.0.1" 9).1.userConnections.filter
          (fun c => c.user == 1 && c.ip == "10.0.0.1")
        = [(UserConnection.update (UserConnection.update emptyDB 1 "10.0.0.1" 5).1 1 "10.0.0.1" 9).2]
      ∧ (UserConnection.update (UserConnection.update emptyDB 1 "10.0.0.1" 5).1 1 "10.0.0.1" 9).2.user = 1
      ∧ (UserConnection.update (UserConnection.update emptyDB 1 "10.0.0.1" 5).1 1 "10.0.0.1" 9).2.ip = "10.0.0.1"
      ∧ (UserConnection.update (UserConnection.update emptyDB 1 "10.0.0.1" 5).1 1 "10.0.0.1" 9).2.updated_at = 9
      ∧ (UserConnection.update emptyDB 1 "10.0.0.1" 5).1.userConnections.filter
          (fun c => c.user == 1 && c.ip == "10.0.0.1")
        = [(UserConnection.update emptyDB 1 "10.0.0.1" 5).2]
      ∧ (UserConnection.update emptyDB 1 "10.0.0.1" 5).2.user = 1
      ∧ (UserConnection.update emptyDB 1 "10.0.0.1" 5).2.ip = "10.0.0.1"
      ∧ (UserConnection.update emptyDB 1 "10.0.0.1" 5).2.updated_at = 5) :=
  ⟨⟨by decide, by decide, by decide⟩,
   userConnection_update_twice emptyDB 1 "10.0.0.1" 5 9 (by decide) (by decide) (by decide)⟩

end Lepus
